import Mathlib

/-!
Shallow embedding of the differential-testing oracle
(`src/execution/mod.rs` and `src/execution/transactional.rs`): the
diff-splitting, chunking, canonicalization and status-classification
pipeline, plus the generic executor contract.

Strings are modelled as Lean `String` (a list of unicode scalar values);
where the Rust code works with byte indices (`str::len`, `str::split_at`)
we compute UTF-8 byte sizes explicitly via `Char.utf8Size`.
-/

/-- The backtick character (U+0060), used by the canonicalizer patterns. -/
def bq : Char := Char.ofNat 96

/-- The single-quote character (U+0027), used by the `MODULE_PAT` pattern. -/
def sqc : Char := Char.ofNat 39

/-- Substring test on char lists: does `s` contain `pat` as a contiguous
infix?  Models Rust `str::contains` with a string pattern. -/
def containsSub (s pat : List Char) : Bool :=
  pat.isPrefixOf s ||
    match s with
    | [] => false
    | _ :: rest => containsSub rest pat

/-- Models Rust `str::contains`. -/
def rustContains (s pat : String) : Bool := containsSub s.data pat.data

/-- Models Rust `str::starts_with`. -/
def rustStartsWith (s pat : String) : Bool := pat.data.isPrefixOf s.data

/-- Models Rust `str::trim` (whitespace stripped from both ends; the Rust
version trims all Unicode `White_Space`, of which the inputs exercised here
only use the ASCII subset recognised by `Char.isWhitespace`). -/
def rustTrim (s : String) : String :=
  ⟨((s.data.dropWhile Char.isWhitespace).reverse.dropWhile Char.isWhitespace).reverse⟩

/-- UTF-8 byte length of a char list; models Rust `str::len`. -/
def utf8Len (l : List Char) : Nat := l.foldl (fun n c => n + c.utf8Size) 0

/-- Helper for `rustLines`: split a char list at newline characters,
accumulating the current line in reverse. -/
def linesAux : List Char → List Char → List (List Char)
  | [], cur => [cur.reverse]
  | c :: rest, cur =>
    if c = '\n' then cur.reverse :: linesAux rest []
    else linesAux rest (c :: cur)

/-- Models Rust `str::lines`: split at `'\n'`, strip one trailing `'\r'`
from each line, and produce no final empty line for a trailing newline
(in particular `"".lines()` is empty). -/
def rustLines (s : String) : List String :=
  let parts := linesAux s.data []
  let parts := if parts.getLast? = some [] then parts.dropLast else parts
  parts.map (fun l => ⟨if l.getLast? = some '\r' then l.dropLast else l⟩)

/-- Models Rust `str::split_at(2)` on a (already trimmed) line: splits at
BYTE offset 2.  Returns `none` when the call would panic: when the string
has fewer than 2 bytes, or when byte offset 2 falls strictly inside a
multi-byte UTF-8 character (not a char boundary). -/
def rustSplitAt2 (s : String) : Option (String × String) :=
  match s.data with
  | [] => none
  | [c] => if c.utf8Size = 2 then some (⟨[c]⟩, ⟨[]⟩) else none
  | c1 :: c2 :: rest =>
    if c1.utf8Size = 1 then
      if c2.utf8Size = 1 then some (⟨[c1, c2]⟩, ⟨rest⟩) else none
    else if c1.utf8Size = 2 then some (⟨[c1]⟩, ⟨c2 :: rest⟩)
    else none

/-- `ResultStatus` from `transactional.rs`. -/
inductive ResultStatus where
  | Success
  | Failure
  | Unknown
deriving DecidableEq, Repr, Inhabited

/-- `ResultChunkKind` from `transactional.rs`. -/
inductive ResultChunkKind where
  | Task
  | Error
  | VMError
  | Bug
  | Panic
  | Warning
deriving DecidableEq, Repr, Inhabited

/-- `ResultChunk` from `transactional.rs`. -/
structure ResultChunk where
  canonical : String
  kind : ResultChunkKind
  lines : List String
deriving DecidableEq, Repr, Inhabited

/-- `TransactionalResult` from `transactional.rs` (`duration` is modelled
as an opaque tick count). -/
structure TransactionalResult where
  log : String
  status : ResultStatus
  v1_chunks : List ResultChunk
  v2_chunks : List ResultChunk
  duration : Nat
deriving DecidableEq, Repr

/-- `ResultChunkKind::try_from_str` from `transactional.rs`: classify a
line, testing the six kind signatures in source order. -/
def try_from_str (msg : String) : Option ResultChunkKind :=
  if rustContains msg "warning" then some .Warning
  else if rustContains msg "task" then some .Task
  else if rustContains msg "VMError" then some .VMError
  else if rustStartsWith msg "error" then some .Error
  else if rustStartsWith msg "bug" then some .Bug
  else if rustStartsWith msg "panic" then some .Panic
  else none

/-- One iteration of the loop in `TransactionalResult::split_diff_log`:
trim the line, drop it if shorter than 2 bytes, otherwise split it at byte
offset 2 into diff sign and content and dispatch on the trimmed sign.
`none` models the `split_at(2)` panic on a non-boundary offset. -/
def processLine (acc : List String × List String) (line : String) :
    Option (List String × List String) :=
  let t := rustTrim line
  if utf8Len t.data < 2 then some acc
  else
    match rustSplitAt2 t with
    | none => none
    | some (diffSign, content0) =>
      let content := rustTrim content0
      if rustTrim diffSign = "-" then some (acc.1 ++ [content], acc.2)
      else if rustTrim diffSign = "+" then some (acc.1, acc.2 ++ [content])
      else if rustTrim diffSign = "=" then
        some (acc.1 ++ [content], acc.2 ++ [content])
      else some acc

/-- The loop of `split_diff_log` over all lines. -/
def splitDiffLogAux : List String → (List String × List String) →
    Option (List String × List String)
  | [], acc => some acc
  | l :: ls, acc =>
    match processLine acc l with
    | none => none
    | some acc' => splitDiffLogAux ls acc'

/-- `TransactionalResult::split_diff_log` from `transactional.rs`.
`none` models a panic. -/
def split_diff_log (log : String) : Option (List String × List String) :=
  splitDiffLogAux (rustLines log) ([], [])

/-- Match a literal prefix; on success return the rest of the input.
Used to model literal parts of the regex patterns and `str::replace`. -/
def matchLit (lit s : List Char) : Option (List Char) :=
  if lit.isPrefixOf s then some (s.drop lit.length) else none

/-- Require exactly the character `q` at the head of the input; return the
rest.  Models a literal character in a regex. -/
def reqChar (q : Char) : List Char → Option (List Char)
  | c :: rest => if c = q then some rest else none
  | [] => none

/-- Require one or more whitespace characters (`\s+`, greedy); return the
input after them.  The following patterns all continue with a non-space
character, so the greedy match is deterministic. -/
def reqWs1 (s : List Char) : Option (List Char) :=
  if (s.takeWhile Char.isWhitespace).isEmpty then none
  else some (s.dropWhile Char.isWhitespace)

/-- Require one or more characters different from `q` (`[^q]+`, greedy)
followed by `q` itself; return the input after the closing `q`. -/
def reqUntil (q : Char) (s : List Char) : Option (List Char) :=
  if (s.takeWhile (fun d => !(d = q))).isEmpty then none
  else reqChar q (s.dropWhile (fun d => !(d = q)))

/-- Model of a regex of shape `lit\s+<q>[^<q>]+<q>` (this covers
`LOCAL_PAT`, `MODULE_PAT` and `TYPE_PAT` from `transactional.rs`; the
character classes involved make the greedy match deterministic).  On a
match at the head of the input, return the input after the match. -/
def tryQuoted (lit : List Char) (q : Char) (s : List Char) : Option (List Char) :=
  (matchLit lit s).bind fun s1 =>
    (reqWs1 s1).bind fun s2 =>
      (reqChar q s2).bind fun s3 =>
        reqUntil q s3

/-- Model of `SOME_PAT` (regex `Some\([^\)]+\)`): on a match at the head
of the input, return the input after the match. -/
def trySomePat (s : List Char) : Option (List Char) :=
  (matchLit "Some(".data s).bind fun s1 => reqUntil ')' s1

/-- Fuel-indexed scanner: walk the input left to right; at each position
try the matcher; on a match emit the replacement and continue after the
match, otherwise emit the current character and move one position.  This
models `Regex::replace_all` (and, with a literal-prefix matcher,
`str::replace`): leftmost matches, non-overlapping, all occurrences.
Each matcher used consumes at least one character (see the shrink lemmas
below), so fuel `s.length` always suffices. -/
def scanF (tryM : List Char → Option (List Char)) (rep : List Char) :
    Nat → List Char → List Char
  | 0, _ => []
  | _ + 1, [] => []
  | n + 1, c :: rest =>
    match tryM (c :: rest) with
    | some r => rep ++ scanF tryM rep n r
    | none => c :: scanF tryM rep n rest

/-- Replace every match of `try` in `s` by `rep`, scanning left to right. -/
def scanReplace (tryM : List Char → Option (List Char)) (rep : List Char)
    (s : List Char) : List Char :=
  scanF tryM rep s.length s

/-- Models Rust `str::replace` (literal pattern, all occurrences). -/
def rustReplace (s pat rep : String) : String :=
  ⟨scanReplace (matchLit pat.data) rep.data s.data⟩

/-- `LOCAL_PAT.replace_all(s, "[some variable]")`. -/
def replaceLocal (s : String) : String :=
  ⟨scanReplace (tryQuoted "local".data bq) "[some variable]".data s.data⟩

/-- `MODULE_PAT.replace_all(s, "[some module]")`. -/
def replaceModule (s : String) : String :=
  ⟨scanReplace (tryQuoted "module".data sqc) "[some module]".data s.data⟩

/-- `TYPE_PAT.replace_all(s, "[some type]")`. -/
def replaceType (s : String) : String :=
  ⟨scanReplace (tryQuoted "type".data bq) "[some type]".data s.data⟩

/-- `SOME_PAT.replace_all(s, "[some value]")`. -/
def replaceSomeVal (s : String) : String :=
  ⟨scanReplace trySomePat "[some value]".data s.data⟩

/-- First capture of `ERROR_CODE_PAT` (regex `` `([^`]*)` ``): the text
between the first backtick pair, if a closing backtick exists. -/
def errorCodeCaptureL : List Char → Option (List Char)
  | [] => none
  | c :: rest =>
    if c = bq then
      match rest.dropWhile (fun d => !(d = bq)) with
      | _ :: _ => some (rest.takeWhile (fun d => !(d = bq)))
      | [] => none
    else errorCodeCaptureL rest

/-- String wrapper for `errorCodeCaptureL`. -/
def errorCodeCapture (s : String) : Option String :=
  (errorCodeCaptureL s.data).map (⟨·⟩)

/-- The body of `ResultChunk::get_canonicalized_msg` after the headline
(`top`) has been selected: the sequential early-return rules of
`transactional.rs`, then the four global substitutions. -/
def canonTop (top : String) : String :=
  if rustContains top "major_status" then
    rustReplace (rustReplace top "major_status: " "error_code: ") "," ""
  else if rustContains top "bytecode verification failed"
      && (errorCodeCapture top).isSome then
    "error_code: " ++ ((errorCodeCapture top).getD "")
  else if rustContains top "mutable ownership violated"
      || rustContains top "which is still mutably borrowed" then
    "...cannot copy while mutably borrowed..."
  else if rustContains top "cannot extract resource"
      || rustContains top "function acquires global" then
    "...cannot acquire..."
  else if rustContains top "cannot infer type"
      || rustContains top "unable to infer instantiation of type" then
    "...cannot infer type..."
  else replaceSomeVal (replaceType (replaceModule (replaceLocal top)))

/-- `ResultChunk::get_canonicalized_msg` from `transactional.rs`.  The
headline is the second line (trimmed) for `VMError` chunks and the first
line otherwise; `none` models the `unwrap` panic when that line is
absent. -/
def get_canonicalized_msg (c : ResultChunk) : Option String :=
  match (match c.kind with
         | .VMError => (c.lines.get? 1).map rustTrim
         | _ => c.lines.get? 0) with
  | none => none
  | some top => some (canonTop top)

/-- Append a line to the last chunk of a list
(`chunks.last_mut().lines.push(line)`). -/
def appendToLast (chunks : List ResultChunk) (line : String) : List ResultChunk :=
  match chunks with
  | [] => []
  | [c] => [{ c with lines := c.lines ++ [line] }]
  | c :: rest => c :: appendToLast rest line

/-- One iteration of the grouping loop in `ResultChunk::log_to_chunck`:
a line classified by `try_from_str` opens a new chunk; an unclassified
line is appended to the open chunk if any, and otherwise logged and
dropped (the stream is not aborted). -/
def pushLine (chunks : List ResultChunk) (line : String) : List ResultChunk :=
  match try_from_str line with
  | some kind => chunks ++ [⟨"", kind, [line]⟩]
  | none =>
    match chunks with
    | [] => chunks
    | _ :: _ => appendToLast chunks line

/-- The grouping phase of `log_to_chunck` (before the warning filter). -/
def logToChunckRaw (log : List String) : List ResultChunk :=
  log.foldl pushLine []

/-- Populate `canonical` on every chunk; `none` models a panic raised by
`get_canonicalized_msg` on any chunk. -/
def canonicalizeAll : List ResultChunk → Option (List ResultChunk)
  | [] => some []
  | c :: cs =>
    match get_canonicalized_msg c with
    | none => none
    | some s => (canonicalizeAll cs).map (fun rest => { c with canonical := s } :: rest)

/-- `ResultChunk::log_to_chunck` from `transactional.rs`: group lines
into chunks, remove `Warning` chunks, then canonicalize the remaining
chunks.  `none` models a panic during canonicalization. -/
def log_to_chunck (log : List String) : Option (List ResultChunk) :=
  canonicalizeAll ((logToChunckRaw log).filter (fun c => c.kind ≠ .Warning))

/-- The positional comparison loop of `ResultStatus::check_chunks`
(reached only with sequences of equal length). -/
def checkLoop : List ResultChunk → List ResultChunk → ResultStatus
  | a :: as, b :: bs =>
    if b.kind = .Bug then .Failure
    else if a.canonical ≠ b.canonical then .Failure
    else checkLoop as bs
  | _, _ => .Success

/-- `ResultStatus::check_chunks` from `transactional.rs`. -/
def check_chunks (v1_chunks v2_chunks : List ResultChunk) : ResultStatus :=
  if v1_chunks.isEmpty && v2_chunks.isEmpty then .Success
  else if v1_chunks.length ≠ v2_chunks.length then .Failure
  else checkLoop v1_chunks v2_chunks

/-- `TransactionalResult::from_run_result` from `transactional.rs`.  The
argument models `res: &Result<(), Box<dyn Error>>`, with the `Err` payload
given as its Debug-format rendering (the only use the function
makes of it).  `none` models a panic inside the pipeline. -/
def from_run_result (res : Except String Unit) (duration : Nat) :
    Option TransactionalResult :=
  match res with
  | .ok _ => some ⟨"Success", .Success, [], [], duration⟩
  | .error log =>
    match split_diff_log log with
    | none => none
    | some (v1_log, v2_log) =>
      match log_to_chunck v1_log, log_to_chunck v2_log with
      | some v1_chunks, some v2_chunks =>
        some ⟨log, check_chunks v1_chunks v2_chunks, v1_chunks, v2_chunks, duration⟩
      | _, _ => none

/-- Outcome of the external invocation inside
`TransactionalRunner::execute_one`: normal success, a returned error
(given by its Debug-format rendering), or a panic unwound out of
the external systems, carrying its payload. -/
inductive RunOutcome where
  | ok
  | runErr (debugLog : String)
  | panicked (payload : String)
deriving DecidableEq, Repr

/-- Models the Debug-format rendering of the `Box<dyn Any + Send>` payload
returned by `std::panic::catch_unwind`: the standard library's `Debug`
impl for `dyn Any` prints the fixed text `Any \x7b .. \x7d`, independent
of the payload. -/
def panicDebug (_payload : String) : String := "Any \x7b .. \x7d"

/-- `TransactionalRunner::execute_one` from `transactional.rs`, modelled
from the point where the external invocation has completed with a
`RunOutcome`: a panic is caught by `catch_unwind` and converted to
an error whose message is the payload box's Debug rendering, and the
result is built by
`from_run_result`. -/
def execute_one (outcome : RunOutcome) (duration : Nat) :
    Option TransactionalResult :=
  match outcome with
  | .ok => from_run_result (.ok ()) duration
  | .runErr l => from_run_result (.error l) duration
  | .panicked p => from_run_result (.error (panicDebug p)) duration

/-- The generic `Executor` trait from `mod.rs`, with `&mut self` methods
modelled as explicit state passing over a state type `S`. -/
structure Executor (I R S : Type) where
  execute_one : S → I → R
  save_result : S → R → S
  should_ignore : S → R → Bool
  is_bug : S → R → Bool

/-- The provided method `Executor::execute_save_report` from `mod.rs`:
execute, decide `should_ignore` on the result, save the result, then
return `Ok(())` when ignored and an error otherwise. -/
def execute_save_report {I R S : Type} (E : Executor I R S) (s : S) (input : I) :
    S × Except String Unit :=
  let result := E.execute_one s input
  let ret := E.should_ignore s result
  let s1 := E.save_result s result
  (s1, match ret with
       | true => .ok ()
       | false => .error "Execution failed, this is a bug")

/-- A trivial executor instance, used to exercise the generic contract at
a concrete type. -/
def E0 : Executor Unit Unit Unit :=
  ⟨fun _ _ => (), fun s _ => s, fun _ _ => true, fun _ _ => false⟩

/-- Re-canonicalize one chunk, as the loop in `log_to_chunck` does:
`e.canonical = e.get_canonicalized_msg()`. -/
def canonicalizeChunk (c : ResultChunk) : Option ResultChunk :=
  (get_canonicalized_msg c).map (fun s => { c with canonical := s })

lemma isPrefixOfIff {l1 l2 : List Char} : l1.isPrefixOf l2 = true ↔ l1 <+: l2 := by
  exact List.isPrefixOf_iff_prefix

lemma containsSub_iff (pat : List Char) :
    ∀ s : List Char, containsSub s pat = true ↔ pat <:+: s := by
  intro s
  induction s with
  | nil => simp [containsSub, isPrefixOfIff]
  | cons c rest ih =>
    rw [containsSub]
    simp [isPrefixOfIff, List.infix_cons_iff, ih]

lemma rustContains_true_iff (s pat : String) :
    rustContains s pat = true ↔ pat.data <:+: s.data :=
  containsSub_iff pat.data s.data

lemma rustContains_false_iff (s pat : String) :
    rustContains s pat = false ↔ ¬ pat.data <:+: s.data := by
  rw [← rustContains_true_iff]
  cases rustContains s pat <;> simp

lemma rustStartsWith_true_iff (s pat : String) :
    rustStartsWith s pat = true ↔ pat.data <+: s.data := by
  rw [rustStartsWith, isPrefixOfIff]

lemma rustStartsWith_false_iff (s pat : String) :
    rustStartsWith s pat = false ↔ ¬ pat.data <+: s.data := by
  rw [← rustStartsWith_true_iff]
  cases rustStartsWith s pat <;> simp

lemma checkLoop_cases : ∀ a b : List ResultChunk,
    checkLoop a b = .Success ∨ checkLoop a b = .Failure := by
  intro a
  induction a with
  | nil => intro b; left; cases b <;> rfl
  | cons x xs ih =>
    intro b
    cases b with
    | nil => left; rfl
    | cons y ys =>
      simp only [checkLoop]
      split_ifs
      · right; rfl
      · right; rfl
      · exact ih ys

lemma checkLoop_success_iff :
    ∀ a b : List ResultChunk,
      checkLoop a b = .Success ↔
        ∀ p ∈ a.zip b, p.2.kind ≠ .Bug ∧ p.1.canonical = p.2.canonical := by
  intro a
  induction a with
  | nil => intro b; cases b <;> simp [checkLoop]
  | cons x xs ih =>
    intro b
    cases b with
    | nil => simp [checkLoop]
    | cons y ys =>
      simp only [checkLoop, List.zip_cons_cons]
      split_ifs with h1 h2
      · refine iff_of_false (by simp) ?_
        intro hall
        exact (hall _ (List.mem_cons_self _ _)).1 h1
      · refine iff_of_false (by simp) ?_
        intro hall
        exact h2 (hall _ (List.mem_cons_self _ _)).2
      · rw [ih ys, List.forall_mem_cons]
        simp [h1, not_not.mp h2]

lemma check_chunks_cases (a b : List ResultChunk) :
    check_chunks a b = .Success ∨ check_chunks a b = .Failure := by
  unfold check_chunks
  split_ifs
  · exact Or.inl rfl
  · exact Or.inr rfl
  · exact checkLoop_cases a b

/-- Claim C2: `check_chunks` returns `Success` on two empty sequences,
`Failure` whenever the lengths differ, and otherwise compares
positionally: the result is `Success` exactly when no position has a
`Bug`-kinded chunk on the second side or a canonical-text mismatch, and
`Failure` exactly when some position does. -/
theorem c2_check_chunks :
    check_chunks [] [] = .Success
    ∧ (∀ a b : List ResultChunk, a.length ≠ b.length → check_chunks a b = .Failure)
    ∧ (∀ a b : List ResultChunk, a.length = b.length →
        ((check_chunks a b = .Success ↔
          ∀ p ∈ a.zip b, p.2.kind ≠ .Bug ∧ p.1.canonical = p.2.canonical)
        ∧ (check_chunks a b = .Failure ↔
          ∃ p ∈ a.zip b, p.2.kind = .Bug ∨ p.1.canonical ≠ p.2.canonical))) := by
  refine ⟨by decide, ?_, ?_⟩
  · intro a b hne
    unfold check_chunks
    split_ifs with h1
    · rw [Bool.and_eq_true] at h1
      simp_all [List.isEmpty_iff]
    · rfl
  · intro a b hlen
    have hsucc : check_chunks a b = .Success ↔
        ∀ p ∈ a.zip b, p.2.kind ≠ .Bug ∧ p.1.canonical = p.2.canonical := by
      unfold check_chunks
      split_ifs with h1 h2
      · rw [Bool.and_eq_true] at h1
        obtain ⟨ha, hb⟩ := h1
        rw [List.isEmpty_iff] at ha hb
        subst ha; subst hb
        simp
      · exact absurd hlen h2
      · exact checkLoop_success_iff a b
    refine ⟨hsucc, ?_⟩
    rcases check_chunks_cases a b with h | h
    · rw [h]
      refine iff_of_false (by simp) ?_
      rintro ⟨p, hp, hor⟩
      have hgood := hsucc.mp h p hp
      rcases hor with hbug | hne'
      · exact hgood.1 hbug
      · exact hne' hgood.2
    · rw [h]
      refine iff_of_true rfl ?_
      by_contra hno
      push_neg at hno
      have : check_chunks a b = .Success := by
        refine hsucc.mpr ?_
        intro p hp
        have hh := hno p hp
        exact ⟨hh.1, hh.2⟩
      rw [h] at this
      simp at this

/-- Witness for C2: a concrete `Bug` chunk on the second side forces
`Failure`, and two empty sequences give `Success`. -/
theorem c2_check_chunks_witness :
    check_chunks [⟨"x", .Task, []⟩] [⟨"x", .Bug, []⟩] = .Failure
    ∧ check_chunks [] [] = .Success := by
  constructor
  · exact ((c2_check_chunks.2.2 [⟨"x", .Task, []⟩] [⟨"x", .Bug, []⟩] (by decide)).2).mpr
      ⟨(⟨"x", .Task, []⟩, ⟨"x", .Bug, []⟩), by decide, Or.inl rfl⟩
  · exact c2_check_chunks.1

/-- Claim C3: the provided method `execute_save_report` saves the executed
result exactly once (its final state is one `save_result` application to
the pre-state, whether or not the result is ignored), returns `Ok` exactly
when `should_ignore` (decided on the result) is true, and otherwise
returns the reportable error. -/
theorem c3_execute_save_report :
    ∀ {I R S : Type} (E : Executor I R S) (s : S) (inp : I),
      (execute_save_report E s inp).1 = E.save_result s (E.execute_one s inp)
      ∧ ((execute_save_report E s inp).2 = .ok () ↔
          E.should_ignore s (E.execute_one s inp) = true)
      ∧ (E.should_ignore s (E.execute_one s inp) = false →
          (execute_save_report E s inp).2 = .error "Execution failed, this is a bug") := by
  intro I R S E s inp
  refine ⟨rfl, ?_, ?_⟩
  · unfold execute_save_report
    cases h : E.should_ignore s (E.execute_one s inp) <;> simp [h]
  · intro h
    unfold execute_save_report
    simp [h]

/-- Witness for C3 at a concrete executor instance. -/
theorem c3_execute_save_report_witness :
    (execute_save_report E0 () ()).1 = E0.save_result () (E0.execute_one () ())
    ∧ ((execute_save_report E0 () ()).2 = .ok () ↔
        E0.should_ignore () (E0.execute_one () ()) = true)
    ∧ (E0.should_ignore () (E0.execute_one () ()) = false →
        (execute_save_report E0 () ()).2 = .error "Execution failed, this is a bug") :=
  c3_execute_save_report E0 () ()

/-- Claim C4 counterexample: on the line sequence
`["error: foo", "  detail", "bug: bar"]` the parser produces chunk bodies
`["error: foo", "  detail"]` and `["bug: bar"]` — the second body is the
whole marker line, not `["bar"]` as the claim states. -/
theorem c4_counterexample :
    (log_to_chunck ["error: foo", "  detail", "bug: bar"]).map
        (fun cs => cs.map ResultChunk.lines)
      = some [["error: foo", "  detail"], ["bug: bar"]]
    ∧ (["bug: bar"] : List String) ≠ ["bar"] := by decide

/-- Claim C4 (amended): the line sequence yields exactly two chunks with
kinds `[Error, Bug]`, bodies `["error: foo", "  detail"]` and
`["bug: bar"]`. -/
theorem c4_amended_chunks :
    log_to_chunck ["error: foo", "  detail", "bug: bar"]
      = some [⟨"error: foo", .Error, ["error: foo", "  detail"]⟩,
              ⟨"bug: bar", .Bug, ["bug: bar"]⟩] := by decide

lemma getCanon_set (c : ResultChunk) (s : String) :
    get_canonicalized_msg { c with canonical := s } = get_canonicalized_msg c := by
  cases c; rfl

/-- Claim C7: the canonical signature is a pure function of `lines` and
`kind`; once a chunk carries its computed canonical text, recomputing it
leaves the chunk unchanged (idempotence). -/
theorem c7_canonical_idempotent :
    ∀ c c' : ResultChunk, canonicalizeChunk c = some c' →
      canonicalizeChunk c' = some c' := by
  intro c c' h
  unfold canonicalizeChunk at h
  cases hg : get_canonicalized_msg c with
  | none => rw [hg] at h; simp at h
  | some s =>
    rw [hg] at h
    simp only [Option.map_some'] at h
    injection h with h'
    subst h'
    unfold canonicalizeChunk
    rw [getCanon_set, hg]
    rfl

/-- Witness for C7 at a concrete chunk. -/
theorem c7_canonical_idempotent_witness :
    canonicalizeChunk ⟨"error: x", .Error, ["error: x"]⟩
      = some ⟨"error: x", .Error, ["error: x"]⟩ :=
  c7_canonical_idempotent ⟨"", .Error, ["error: x"]⟩
    ⟨"error: x", .Error, ["error: x"]⟩ (by decide)

/-- Claim C9: every result built by `from_run_result` (hence every result
returned normally by `execute_one`) carries status `Success` or `Failure`,
never `Unknown`. -/
theorem c9_status_classified :
    ∀ (res : Except String Unit) (dur : Nat) (r : TransactionalResult),
      from_run_result res dur = some r →
      r.status = .Success ∨ r.status = .Failure := by
  intro res dur r h
  cases res with
  | ok u =>
    simp only [from_run_result] at h
    injection h with h'
    subst h'
    left; rfl
  | error log =>
    simp only [from_run_result] at h
    split at h
    · exact absurd h (by simp)
    · split at h
      · injection h with h'
        subst h'
        exact check_chunks_cases _ _
      · exact absurd h (by simp)

/-- Witness for C9 at the success outcome. -/
theorem c9_status_classified_witness :
    (⟨"Success", .Success, [], [], 0⟩ : TransactionalResult).status = .Success
    ∨ (⟨"Success", .Success, [], [], 0⟩ : TransactionalResult).status = .Failure :=
  c9_status_classified (.ok ()) 0 ⟨"Success", .Success, [], [], 0⟩ rfl

/-- Claim C1 (code bug): a panic of the external systems IS caught and
converted into a result, but its payload is lost — the captured log is the
constant `Debug` rendering of `Box<dyn Any>` — and that log parses to zero
chunks, so the result is classified `Success`, not `Failure`. -/
theorem c1_panic_lost :
    (∀ (p : String) (d : Nat),
      execute_one (.panicked p) d = some ⟨"Any \x7b .. \x7d", .Success, [], [], d⟩)
    ∧ rustContains (panicDebug "boom") "boom" = false :=
  ⟨fun _ _ => rfl, by decide⟩

/-- Claim C10: `split_diff_log` panics (modelled as `none`) on a line
whose trimmed form has at least 2 bytes but starts with a 3-byte UTF-8
character, so byte offset 2 is not a char boundary. -/
theorem c10_split_at_panics :
    rustTrim "€zz" = "€zz"
    ∧ 2 ≤ utf8Len (rustTrim "€zz").data
    ∧ ("€zz".data.head?.map Char.utf8Size) = some 3
    ∧ rustSplitAt2 (rustTrim "€zz") = none
    ∧ split_diff_log "€zz" = none := by decide

lemma appendToLast_concat (cs : List ResultChunk) (c : ResultChunk) (line : String) :
    appendToLast (cs ++ [c]) line = cs ++ [{ c with lines := c.lines ++ [line] }] := by
  induction cs with
  | nil => rfl
  | cons hd tl ih =>
    obtain ⟨hd2, tl2, heq⟩ : ∃ hd2 tl2, tl ++ [c] = hd2 :: tl2 := by
      cases tl <;> exact ⟨_, _, rfl⟩
    calc appendToLast (hd :: (tl ++ [c])) line
        = hd :: appendToLast (tl ++ [c]) line := by
          rw [heq]; rfl
      _ = hd :: (tl ++ [{ c with lines := c.lines ++ [line] }]) := by rw [ih]
      _ = (hd :: tl) ++ [{ c with lines := c.lines ++ [line] }] := rfl

lemma canonicalizeAll_kinds :
    ∀ l l' : List ResultChunk, canonicalizeAll l = some l' →
      ∀ c' ∈ l', ∃ c ∈ l, c'.kind = c.kind := by
  intro l
  induction l with
  | nil =>
    intro l' h c' hc'
    simp only [canonicalizeAll] at h
    injection h with h'
    subst h'
    simp at hc'
  | cons c cs ih =>
    intro l' h c' hc'
    simp only [canonicalizeAll] at h
    split at h
    · exact absurd h (by simp)
    · cases hrest : canonicalizeAll cs with
      | none => rw [hrest] at h; simp at h
      | some rest =>
        rw [hrest] at h
        simp only [Option.map_some'] at h
        injection h with h'
        subst h'
        rcases List.mem_cons.mp hc' with rfl | hmem
        · exact ⟨c, List.mem_cons_self _ _, rfl⟩
        · obtain ⟨c0, hc0, hk⟩ := ih rest hrest c' hmem
          exact ⟨c0, List.mem_cons_of_mem _ hc0, hk⟩

/-- Claim C5: line classification tests the six kind signatures in the
exact source priority with case-sensitive contains/prefix tests (each
kind's characterization includes the negation of every earlier test); an
unclassified line is appended to the body of the open chunk when one
exists and dropped when none is; and after grouping no `Warning` chunk
survives into the canonicalized sequence. -/
theorem c5_chunk_grouping :
    (∀ msg : String,
      (try_from_str msg = some .Warning ↔ "warning".data <:+: msg.data)
      ∧ (try_from_str msg = some .Task ↔
          "task".data <:+: msg.data ∧ ¬ "warning".data <:+: msg.data)
      ∧ (try_from_str msg = some .VMError ↔
          "VMError".data <:+: msg.data ∧ ¬ "task".data <:+: msg.data
          ∧ ¬ "warning".data <:+: msg.data)
      ∧ (try_from_str msg = some .Error ↔
          "error".data <+: msg.data ∧ ¬ "VMError".data <:+: msg.data
          ∧ ¬ "task".data <:+: msg.data ∧ ¬ "warning".data <:+: msg.data)
      ∧ (try_from_str msg = some .Bug ↔
          "bug".data <+: msg.data ∧ ¬ "error".data <+: msg.data
          ∧ ¬ "VMError".data <:+: msg.data ∧ ¬ "task".data <:+: msg.data
          ∧ ¬ "warning".data <:+: msg.data)
      ∧ (try_from_str msg = some .Panic ↔
          "panic".data <+: msg.data ∧ ¬ "bug".data <+: msg.data
          ∧ ¬ "error".data <+: msg.data ∧ ¬ "VMError".data <:+: msg.data
          ∧ ¬ "task".data <:+: msg.data ∧ ¬ "warning".data <:+: msg.data))
    ∧ (∀ line : String, try_from_str line = none → pushLine [] line = [])
    ∧ (∀ (line : String) (cs : List ResultChunk) (c : ResultChunk),
        try_from_str line = none →
        pushLine (cs ++ [c]) line = cs ++ [{ c with lines := c.lines ++ [line] }])
    ∧ (∀ (log : List String) (cs : List ResultChunk),
        log_to_chunck log = some cs → ∀ c ∈ cs, c.kind ≠ .Warning) := by
  refine ⟨?_, ?_, ?_, ?_⟩
  · intro msg
    unfold try_from_str
    refine ⟨?_, ?_, ?_, ?_, ?_, ?_⟩ <;>
      · split_ifs with h1 h2 h3 h4 h5 h6 <;>
          simp_all [rustContains_true_iff, rustContains_false_iff,
            rustStartsWith_true_iff, rustStartsWith_false_iff]
  · intro line h
    simp [pushLine, h]
  · intro line cs c h
    have hne : ∃ hd tl, cs ++ [c] = hd :: tl := by
      cases cs <;> exact ⟨_, _, rfl⟩
    obtain ⟨hd, tl, heq⟩ := hne
    calc pushLine (cs ++ [c]) line
        = appendToLast (cs ++ [c]) line := by
          rw [heq]; simp [pushLine, h]
      _ = cs ++ [{ c with lines := c.lines ++ [line] }] := appendToLast_concat cs c line
  · intro log cs h c hc
    unfold log_to_chunck at h
    obtain ⟨c0, hc0, hk⟩ := canonicalizeAll_kinds _ cs h c hc
    rw [hk]
    exact of_decide_eq_true (List.mem_filter.mp hc0).2

/-- Witness for C5: an unclassifiable continuation line is appended to the
open chunk's body. -/
theorem c5_chunk_grouping_witness :
    pushLine ([] ++ [⟨"", .Error, ["error: a"]⟩]) "  detail"
      = [] ++ [⟨"", .Error, ["error: a", "  detail"]⟩] :=
  c5_chunk_grouping.2.2.1 "  detail" [] ⟨"", .Error, ["error: a"]⟩ (by decide)

/-- Does `split_at(2)` succeed on this (trimmed) line, i.e. is byte
offset 2 a char boundary whenever the line is long enough to be split? -/
def boundary2Ok (s : String) : Bool :=
  if utf8Len s.data < 2 then true else (rustSplitAt2 s).isSome

/-- Modelled from the amended claim C6's words: the per-line decision of
the DiffSplitter — trim, drop lines shorter than 2 bytes, split off the
two-byte marker, and route the trimmed content to A, B, or both according
to the trimmed marker, dropping lines with any other marker. -/
def markerDest (line : String) : Option (Bool × Bool × String) :=
  let t := rustTrim line
  if utf8Len t.data < 2 then none
  else
    match rustSplitAt2 t with
    | none => none
    | some (sign, content) =>
      if rustTrim sign = "-" then some (true, false, rustTrim content)
      else if rustTrim sign = "+" then some (false, true, rustTrim content)
      else if rustTrim sign = "=" then some (true, true, rustTrim content)
      else none

/-- Content a line contributes to sequence A, per the claim's words. -/
def destA (line : String) : Option String :=
  (markerDest line).bind (fun x => if x.1 then some x.2.2 else none)

/-- Content a line contributes to sequence B, per the claim's words. -/
def destB (line : String) : Option String :=
  (markerDest line).bind (fun x => if x.2.1 then some x.2.2 else none)

/-- Sequence A of the claim-side splitter: each line decided
independently, in order. -/
def specA (log : String) : List String := (rustLines log).filterMap destA

/-- Sequence B of the claim-side splitter. -/
def specB (log : String) : List String := (rustLines log).filterMap destB

lemma processLine_eq (acc : List String × List String) (l : String)
    (hb : boundary2Ok (rustTrim l) = true) :
    processLine acc l = some (acc.1 ++ (destA l).toList, acc.2 ++ (destB l).toList) := by
  unfold boundary2Ok at hb
  unfold processLine destA destB markerDest
  by_cases h1 : utf8Len (rustTrim l).data < 2
  · simp [h1]
  · rw [if_neg h1] at hb
    cases h2 : rustSplitAt2 (rustTrim l) with
    | none => rw [h2] at hb; simp at hb
    | some p =>
      obtain ⟨sign, content⟩ := p
      by_cases hm : rustTrim sign = "-"
      · simp [h1, h2, hm]
      · by_cases hp : rustTrim sign = "+"
        · simp [h1, h2, hm, hp]
        · by_cases he : rustTrim sign = "="
          · simp [h1, h2, hm, hp, he]
          · simp [h1, h2, hm, hp, he]

lemma splitAux_spec :
    ∀ (ls : List String) (acc : List String × List String),
      (∀ l ∈ ls, boundary2Ok (rustTrim l) = true) →
      splitDiffLogAux ls acc
        = some (acc.1 ++ ls.filterMap destA, acc.2 ++ ls.filterMap destB) := by
  intro ls
  induction ls with
  | nil => intro acc _; simp [splitDiffLogAux]
  | cons l ls ih =>
    intro acc h
    have hb := h l (List.mem_cons_self _ _)
    simp only [splitDiffLogAux, processLine_eq acc l hb]
    rw [ih _ (fun x hx => h x (List.mem_cons_of_mem _ hx))]
    cases hA : destA l <;> cases hB : destB l <;>
      simp [List.filterMap_cons, hA, hB]

/-- Claim C6 counterexample: on the log `"€ab"` the claim-side splitter
drops the line (its marker matches none of `"- "`, `"+ "`, `"= "`), but
`split_diff_log` panics (modelled as `none`) because byte offset 2 falls
inside the leading 3-byte character — the line is not dropped silently. -/
theorem c6_counterexample :
    split_diff_log "€ab" = none
    ∧ specA "€ab" = [] ∧ specB "€ab" = [] := by decide

/-- Claim C6 (amended): provided every line's trimmed form can be split
at byte offset 2 (offset 2 is a char boundary — e.g. any ASCII log), the
DiffSplitter decides each line independently preserving relative order:
after trimming, a line of byte length < 2 is dropped; a line whose
trimmed two-byte marker is `"-"` contributes its trimmed content to A
only, `"+"` to B only, `"="` to both, and any other marker is dropped
silently; in particular `"- a\n+ b\n= c"` yields A = `["a", "c"]`,
B = `["b", "c"]`. -/
theorem c6_amended_split :
    (∀ log : String, (∀ l ∈ rustLines log, boundary2Ok (rustTrim l) = true) →
      split_diff_log log = some (specA log, specB log))
    ∧ split_diff_log "- a\n+ b\n= c" = some (["a", "c"], ["b", "c"]) := by
  constructor
  · intro log h
    unfold split_diff_log specA specB
    rw [splitAux_spec (rustLines log) ([], []) h]
    rfl
  · decide

/-- Witness for C6 on the claim's concrete example log. -/
theorem c6_amended_split_witness :
    split_diff_log "- a\n+ b\n= c"
      = some (specA "- a\n+ b\n= c", specB "- a\n+ b\n= c") :=
  c6_amended_split.1 "- a\n+ b\n= c" (by decide)

lemma takeWhile_append_stop (p : Char → Bool) (xs : List Char) (b : Char)
    (l : List Char) (hxs : ∀ a ∈ xs, p a = true) (hb : p b = false) :
    (xs ++ b :: l).takeWhile p = xs := by
  induction xs with
  | nil => simp [List.takeWhile_cons, hb]
  | cons a as ih =>
    have ha := hxs a (List.mem_cons_self _ _)
    simp [List.takeWhile_cons, ha,
      ih (fun c hc => hxs c (List.mem_cons_of_mem _ hc))]

lemma dropWhile_append_stop (p : Char → Bool) (xs : List Char) (b : Char)
    (l : List Char) (hxs : ∀ a ∈ xs, p a = true) (hb : p b = false) :
    (xs ++ b :: l).dropWhile p = b :: l := by
  induction xs with
  | nil => simp [List.dropWhile_cons, hb]
  | cons a as ih =>
    have ha := hxs a (List.mem_cons_self _ _)
    simp [List.dropWhile_cons, ha,
      ih (fun c hc => hxs c (List.mem_cons_of_mem _ hc))]

lemma matchLit_eq (lit s s1 : List Char) (h : matchLit lit s = some s1) :
    s1 = s.drop lit.length := by
  unfold matchLit at h
  split_ifs at h
  exact (Option.some.inj h).symm

lemma matchLit_len (lit s s1 : List Char) (h : matchLit lit s = some s1) :
    s1.length ≤ s.length := by
  rw [matchLit_eq lit s s1 h, List.length_drop]
  omega

lemma reqWs1_len (s r : List Char) (h : reqWs1 s = some r) :
    r.length ≤ s.length := by
  unfold reqWs1 at h
  split_ifs at h
  rw [← Option.some.inj h]
  exact (List.dropWhile_suffix _).length_le

lemma reqChar_len (q : Char) (s r : List Char) (h : reqChar q s = some r) :
    r.length < s.length := by
  cases s with
  | nil => simp [reqChar] at h
  | cons c rest =>
    simp only [reqChar] at h
    split_ifs at h
    rw [← Option.some.inj h]
    simp

lemma reqUntil_len (q : Char) (s r : List Char) (h : reqUntil q s = some r) :
    r.length < s.length := by
  unfold reqUntil at h
  split_ifs at h
  have h1 := reqChar_len q _ r h
  have h2 := (List.dropWhile_suffix (fun d => !(d = q)) (l := s)).length_le
  omega

lemma tryQuoted_shrink (lit : List Char) (q : Char) :
    ∀ s r : List Char, tryQuoted lit q s = some r → r.length < s.length := by
  intro s r h
  unfold tryQuoted at h
  rcases Option.bind_eq_some.mp h with ⟨s1, h1, h'⟩
  rcases Option.bind_eq_some.mp h' with ⟨s2, h2, h''⟩
  rcases Option.bind_eq_some.mp h'' with ⟨s3, h3, h4⟩
  have l1 := matchLit_len lit s s1 h1
  have l2 := reqWs1_len s1 s2 h2
  have l3 := reqChar_len q s2 s3 h3
  have l4 := reqUntil_len q s3 r h4
  omega

lemma trySomePat_shrink :
    ∀ s r : List Char, trySomePat s = some r → r.length < s.length := by
  intro s r h
  unfold trySomePat at h
  rcases Option.bind_eq_some.mp h with ⟨s1, h1, h2⟩
  have l1 := matchLit_len _ s s1 h1
  have l2 := reqUntil_len _ s1 r h2
  omega

lemma scanF_fuel (tryM : List Char → Option (List Char)) (rep : List Char)
    (hsh : ∀ s r, tryM s = some r → r.length < s.length) :
    ∀ (n m : Nat) (s : List Char), s.length ≤ n → s.length ≤ m →
      scanF tryM rep n s = scanF tryM rep m s := by
  intro n
  induction n with
  | zero =>
    intro m s hn _
    have hs : s = [] := List.length_eq_zero.mp (Nat.le_zero.mp hn)
    subst hs
    cases m <;> rfl
  | succ n ih =>
    intro m s hn hm
    cases s with
    | nil => cases m <;> rfl
    | cons c rest =>
      cases m with
      | zero => simp at hm
      | succ m' =>
        simp only [List.length_cons] at hn hm
        cases htry : tryM (c :: rest) with
        | some r =>
          have hr := hsh _ _ htry
          simp only [List.length_cons] at hr
          simp only [scanF, htry]
          rw [ih m' r (by omega) (by omega)]
        | none =>
          simp only [scanF, htry]
          rw [ih m' rest (by omega) (by omega)]

lemma scanReplace_match (tryM : List Char → Option (List Char)) (rep : List Char)
    (hsh : ∀ s r, tryM s = some r → r.length < s.length)
    (s r : List Char) (h : tryM s = some r) (hs : s ≠ []) :
    scanReplace tryM rep s = rep ++ scanReplace tryM rep r := by
  obtain ⟨c, rest, rfl⟩ := List.exists_cons_of_ne_nil hs
  unfold scanReplace
  simp only [List.length_cons]
  simp only [scanF, h]
  congr 1
  have hr := hsh _ _ h
  simp only [List.length_cons] at hr
  exact scanF_fuel tryM rep hsh rest.length r.length r (by omega) (le_refl _)

lemma matchLit_append (lit rest : List Char) :
    matchLit lit (lit ++ rest) = some rest := by
  unfold matchLit
  rw [if_pos (isPrefixOfIff.mpr (List.prefix_append _ _)), List.drop_left]

lemma tryQuoted_hit (lit : List Char) (q : Char) (x tail : List Char)
    (hqws : q.isWhitespace = false) (hx : x ≠ []) (hq : ∀ c ∈ x, ¬ c = q) :
    tryQuoted lit q (lit ++ ' ' :: q :: (x ++ q :: tail)) = some tail := by
  have hx' : ∀ a ∈ x, (!(a = q)) = true := fun a ha => by simpa using hq a ha
  have hqq : (!(q = q)) = false := by simp
  have hsp : (' ').isWhitespace = true := by decide
  have h1 : matchLit lit (lit ++ ' ' :: q :: (x ++ q :: tail))
      = some (' ' :: q :: (x ++ q :: tail)) := matchLit_append _ _
  have h2 : reqWs1 (' ' :: q :: (x ++ q :: tail)) = some (q :: (x ++ q :: tail)) := by
    simp [reqWs1, List.takeWhile_cons, List.dropWhile_cons, hsp, hqws]
  have h3 : reqChar q (q :: (x ++ q :: tail)) = some (x ++ q :: tail) := by
    simp [reqChar]
  have h4 : reqUntil q (x ++ q :: tail) = some tail := by
    unfold reqUntil
    rw [takeWhile_append_stop _ x q tail hx' hqq,
      dropWhile_append_stop _ x q tail hx' hqq]
    rw [if_neg (by simpa [List.isEmpty_iff] using hx)]
    simp [reqChar]
  rw [tryQuoted, h1, Option.some_bind, h2, Option.some_bind, h3,
    Option.some_bind, h4]

lemma replaceLocal_headline (x : String) (hx : x.data ≠ [])
    (hq : ∀ c ∈ x.data, ¬ c = bq) :
    replaceLocal ("local `" ++ x ++ "` is unavailable")
      = "[some variable] is unavailable" := by
  unfold replaceLocal
  have hdata : ("local `" ++ x ++ "` is unavailable").data
      = "local".data ++ ' ' :: bq :: (x.data ++ bq :: " is unavailable".data) := by
    rw [String.data_append, String.data_append]
    have h1 : "local `".data = "local".data ++ [' ', bq] := by decide
    have h2 : "` is unavailable".data = bq :: " is unavailable".data := by decide
    rw [h1, h2]
    simp
  rw [hdata]
  have hmatch := tryQuoted_hit "local".data bq x.data " is unavailable".data
    (by decide) hx hq
  have hne : "local".data ++ ' ' :: bq :: (x.data ++ bq :: " is unavailable".data)
      ≠ [] := by simp
  rw [scanReplace_match (tryQuoted "local".data bq) "[some variable]".data
    (tryQuoted_shrink "local".data bq) _ _ hmatch hne]
  have hrest : scanReplace (tryQuoted "local".data bq) "[some variable]".data
      " is unavailable".data = " is unavailable".data := by decide
  rw [hrest]
  decide

/-- None of the canonicalizer's early-return trigger substrings occurs in
the headline: under this proviso `get_canonicalized_msg` reaches the
placeholder substitutions. -/
def noTrigger (h : String) : Prop :=
  rustContains h "major_status" = false
  ∧ rustContains h "bytecode verification failed" = false
  ∧ rustContains h "mutable ownership violated" = false
  ∧ rustContains h "which is still mutably borrowed" = false
  ∧ rustContains h "cannot extract resource" = false
  ∧ rustContains h "function acquires global" = false
  ∧ rustContains h "cannot infer type" = false
  ∧ rustContains h "unable to infer instantiation of type" = false

lemma canon_local_headline (k : ResultChunkKind) (x : String) (r1 : List String)
    (can : String) (hk : k ≠ .VMError) (hx : x.data ≠ [])
    (hq : ∀ c ∈ x.data, ¬ c = bq)
    (htr : noTrigger ("local `" ++ x ++ "` is unavailable")) :
    get_canonicalized_msg ⟨can, k, ("local `" ++ x ++ "` is unavailable") :: r1⟩
      = some "[some variable] is unavailable" := by
  obtain ⟨t1, t2, t3, t4, t5, t6, t7, t8⟩ := htr
  have htop : canonTop ("local `" ++ x ++ "` is unavailable")
      = "[some variable] is unavailable" := by
    unfold canonTop
    rw [if_neg (by simp [t1]), if_neg (by simp [t2]),
      if_neg (by simp [t3, t4]), if_neg (by simp [t5, t6]),
      if_neg (by simp [t7, t8])]
    rw [replaceLocal_headline x hx hq]
    decide
  cases k with
  | VMError => exact absurd rfl hk
  | Task => simpa [get_canonicalized_msg] using htop
  | Error => simpa [get_canonicalized_msg] using htop
  | Bug => simpa [get_canonicalized_msg] using htop
  | Panic => simpa [get_canonicalized_msg] using htop
  | Warning => simpa [get_canonicalized_msg] using htop

/-- Claim C8 counterexample: these two headlines differ only in the
identifier inside the local-backtick occurrence and the chunks share the
non-VMError kind `Error`, yet their canonical texts differ, because the
`major_status` early-return rule fires before the placeholder
substitution. -/
theorem c8_counterexample :
    get_canonicalized_msg ⟨"", .Error, ["major_status local `x`"]⟩
      ≠ get_canonicalized_msg ⟨"", .Error, ["major_status local `y`"]⟩ := by decide

/-- Claim C8 (amended): for chunks of the same non-VMError kind whose
headlines are `` local `x` is unavailable `` and `` local `y` is
unavailable `` for nonempty backtick-free identifiers `x`, `y`, provided
neither headline contains an early-return trigger substring, the
canonical texts are identical — both the `"[some variable]"` placeholder
form. -/
theorem c8_amended_insensitive :
    ∀ (k : ResultChunkKind) (x y : String) (r1 r2 : List String)
      (can1 can2 : String),
      k ≠ .VMError →
      x.data ≠ [] → (∀ c ∈ x.data, ¬ c = bq) →
      y.data ≠ [] → (∀ c ∈ y.data, ¬ c = bq) →
      noTrigger ("local `" ++ x ++ "` is unavailable") →
      noTrigger ("local `" ++ y ++ "` is unavailable") →
      get_canonicalized_msg ⟨can1, k, ("local `" ++ x ++ "` is unavailable") :: r1⟩
        = get_canonicalized_msg ⟨can2, k, ("local `" ++ y ++ "` is unavailable") :: r2⟩
      ∧ get_canonicalized_msg ⟨can1, k, ("local `" ++ x ++ "` is unavailable") :: r1⟩
        = some "[some variable] is unavailable" := by
  intro k x y r1 r2 can1 can2 hk hx hqx hy hqy htrx htry
  have h1 := canon_local_headline k x r1 can1 hk hx hqx htrx
  have h2 := canon_local_headline k y r2 can2 hk hy hqy htry
  exact ⟨h1.trans h2.symm, h1⟩

/-- Witness for C8 at the claim's own example identifiers `x` and `y`. -/
theorem c8_amended_insensitive_witness :
    get_canonicalized_msg ⟨"", .Error, ["local `x` is unavailable"]⟩
      = get_canonicalized_msg ⟨"", .Error, ["local `y` is unavailable"]⟩
    ∧ get_canonicalized_msg ⟨"", .Error, ["local `x` is unavailable"]⟩
      = some "[some variable] is unavailable" := by
  have h := c8_amended_insensitive .Error "x" "y" [] [] "" "" (by decide)
    (by decide) (by decide) (by decide) (by decide)
    (by unfold noTrigger; decide) (by unfold noTrigger; decide)
  simpa using h
